import Mathlib

/-!
Shallow embedding of the PdfRag retrieval and knowledge-graph core.

Sources embedded here:
* `app/service/SearchService.py` — hybrid retrieval: BM25 + dense-vector
  candidate generation, merge/deduplicate, reciprocal-rank-fusion rerank,
  threshold filter, result combination.
* `app/service/GraphRAGService.py` — entity deduplication/merging, relation
  optimisation, LLM response parsing.
* `utils/resource_manager.py` — task governor (`submit_task`).
* `utils/async_processor.py` — batch window (`BatchProcessor`).

Modelling conventions: Python floats become `ℚ`; Python dicts become
structures or association lists (insertion-ordered, as in CPython);
`sorted(..., key=k, reverse=True)` — a stable descending sort — becomes
`List.insertionSort` with the relation `k b ≤ k a`, which places an element
before all equal keys exactly as CPython's stable sort keeps earlier input
first among equal keys; `json.loads` (the Python standard library, external
to the repository) is an explicit `decode` parameter; `uuid` fields and
wall-clock timestamps are omitted as nondeterministic externals.
-/

namespace PdfRag

/-- A retrieval candidate as built by `SearchService._bm25_search` /
`_dense_vector_search`: a dict carrying a `source` tag, `chunk_id`,
native `score`, and (after reranking) a `final_score`.  `chunk_id` is
`Option` because `result.get("chunk_id")` may be absent (`None`);
`metadata` is the already-decoded metadata dict. -/
structure Cand where
  source : String
  chunk_id : Option String
  score : ℚ
  final_score : ℚ
  content : String
  file_id : String
  metadata : List (String × String)
deriving DecidableEq, Repr

/-- Python `sorted(l, key=key, reverse=True)`: stable descending sort.
`a` may precede `b` exactly when `key b ≤ key a`. -/
def descBy (key : α → ℚ) (a b : α) : Prop := key b ≤ key a

instance (key : α → ℚ) : DecidableRel (descBy key) :=
  fun a b => inferInstanceAs (Decidable (key b ≤ key a))

/-- Stable descending sort by a rational key (CPython `sorted` with
`reverse=True`). -/
def pySortDesc (key : α → ℚ) (l : List α) : List α :=
  l.insertionSort (descBy key)

/-- `SearchService._merge_and_deduplicate`, inner loop: keep a result only
when its `chunk_id` is truthy (present and non-empty) and unseen. -/
def mergeDedupAux : List String → List Cand → List Cand
  | _, [] => []
  | seen, r :: rs =>
    match r.chunk_id with
    | some c =>
      if c ≠ "" ∧ c ∉ seen then r :: mergeDedupAux (c :: seen) rs
      else mergeDedupAux seen rs
    | none => mergeDedupAux seen rs

/-- `SearchService._merge_and_deduplicate` (SearchService.py:261-280):
concatenate BM25 results then vector results, first occurrence of each
chunk id wins. -/
def mergeAndDeduplicate (bm25_results vector_results : List Cand) : List Cand :=
  mergeDedupAux [] (bm25_results ++ vector_results)

/-- The RRF accumulation loop of `SearchService._rerank_results`
(SearchService.py:299-307): walking a ranked list from rank `k`, each
occurrence of chunk `c` (truthy chunk id) contributes `1/(60 + rank)`. -/
def rrfFrom (k : ℕ) (c : String) : List Cand → ℚ
  | [] => 0
  | r :: rs =>
    (if r.chunk_id = some c ∧ c ≠ "" then (1 : ℚ) / (60 + k) else 0) +
      rrfFrom (k + 1) c rs

/-- `SearchService._rerank_results`: the per-source ranked list — filter by
source tag, then sort by native score descending (stable). -/
def sourceRanked (src : String) (results : List Cand) : List Cand :=
  pySortDesc (fun r => r.score) (results.filter fun r => r.source = src)

/-- `final_score` looked up for one result: `rrf_scores.get(chunk_id, 0)`.
A missing or empty chunk id was never entered into `rrf_scores`, hence 0. -/
def finalScoreOf (bm vs : List Cand) : Option String → ℚ
  | none => 0
  | some c => rrfFrom 1 c bm + rrfFrom 1 c vs

/-- The score-assignment pass of `_rerank_results` (SearchService.py:310-312):
every result receives `final_score = rrf_scores.get(chunk_id, 0)`. -/
def assignedScores (results : List Cand) : List Cand :=
  results.map fun r =>
    { r with
      final_score :=
        finalScoreOf (sourceRanked "bm25" results) (sourceRanked "vector" results)
          r.chunk_id }

/-- `SearchService._rerank_results` (SearchService.py:282-319): empty input
short-circuits; otherwise assign RRF scores and sort by `final_score`
descending. -/
def rerankResults (results : List Cand) : List Cand :=
  if results.isEmpty then []
  else pySortDesc (fun r => r.final_score) (assignedScores results)

/-- Step 5 of `SearchService._vector_search` (SearchService.py:213-218):
keep results whose `final_score` reaches the configured similarity
threshold. -/
def thresholdFilter (thr : ℚ) (l : List Cand) : List Cand :=
  l.filter fun r => thr ≤ r.final_score

/-- `SearchService._vector_search` after candidate generation
(SearchService.py:206-221): merge, rerank, threshold-filter, truncate to
`top_k` (default 10).  `thr` is the configured `similarity_threshold`
(default 0.7). -/
def vectorSearchPipeline (thr : ℚ) (bm25_results vector_results : List Cand) :
    List Cand :=
  (thresholdFilter thr (rerankResults (mergeAndDeduplicate bm25_results vector_results))).take 10

/-! ### The candidate lists used in the spec's RRF scenario:
lexical = [docX@1, docY@2], vector = [docY@1, docZ@2]. -/

/-- Lexical-stage output of the spec scenario: docX at rank 1, docY at rank 2. -/
def scenarioLex : List Cand :=
  [⟨"bm25", some "docX", 2, 0, "", "", []⟩, ⟨"bm25", some "docY", 1, 0, "", "", []⟩]

/-- Vector-stage output of the spec scenario: docY at rank 1, docZ at rank 2. -/
def scenarioVec : List Cand :=
  [⟨"vector", some "docY", 2, 0, "", "", []⟩, ⟨"vector", some "docZ", 1, 0, "", "", []⟩]

/-! ### `SearchService._combine_search_results` (SearchService.py:589-631) -/

/-- One entry of the combined evidence list: `type` tag ("vector"/"graph"),
`content_type`, native `score`, and the content payload. -/
structure CItem where
  kind : String
  content_type : String
  score : ℚ
  content : String
deriving DecidableEq, Repr

/-- `metadata.get("type", "text")` on the decoded metadata dict. -/
def contentTypeOf (md : List (String × String)) : String :=
  (md.lookup "type").getD "text"

/-- The combined item built from one vector result
(SearchService.py:599-607). -/
def toCombinedVector (r : Cand) : CItem :=
  ⟨"vector", contentTypeOf r.metadata, r.score, r.content⟩

/-- The combined item built from one graph result (SearchService.py:620-626):
content type "graph", fixed default score 0.8, independent of any RRF
score. -/
def toCombinedGraph (p : String) : CItem :=
  ⟨"graph", "graph", 8/10, p⟩

/-- 1 when the content type is not plain text, else 0 — the primary
component of the sort key `(content_type != "text", score)`. -/
def multimediaFlag (x : CItem) : ℕ :=
  if x.content_type = "text" then 0 else 1

/-- `a` may precede `b` under
`combined.sort(key=lambda x: (x content_type != "text", x score), reverse=True)`:
the key of `b` is lexicographically at most the key of `a`. -/
def combRel (a b : CItem) : Prop :=
  multimediaFlag b < multimediaFlag a ∨
    (multimediaFlag b = multimediaFlag a ∧ b.score ≤ a.score)

instance : DecidableRel combRel := fun a b => by
  unfold combRel; infer_instance

/-- `SearchService._combine_search_results`: convert vector results, append
graph results (default score 0.8), stable-sort by the lexicographic key
(non-text first, then score descending), truncate to 15. -/
def combineSearchResults (vector_results : List Cand) (graph_results : List String) :
    List CItem :=
  (((vector_results.map toCombinedVector) ++ (graph_results.map toCombinedGraph)).insertionSort
      combRel).take 15

/-! ### `SearchService._direct_search` and stage degradation
(SearchService.py:64-87, 227-244) -/

/-- A row of the MySQL full-text query in `_bm25_search`. -/
structure BRow where
  file_id : String
  chunk_id : String
  content : String
  bm25_score : ℚ
deriving DecidableEq, Repr

/-- A hit returned by the Milvus search in `_dense_vector_search`. -/
structure VRow where
  file_id : String
  chunk_id : String
  content : String
  score : ℚ
  metadata : List (String × String)
deriving DecidableEq, Repr

/-- `SearchService._bm25_search` (SearchService.py:227-244): tag rows with
source "bm25"; a raised backend error is caught and degrades to `[]`. -/
def bm25Search (backend : Except String (List BRow)) : List Cand :=
  match backend with
  | .error _ => []
  | .ok rows => rows.map fun r => ⟨"bm25", some r.chunk_id, r.bm25_score, 0, r.content, r.file_id, []⟩

/-- `SearchService._dense_vector_search` (SearchService.py:246-259): tag hits
with source "vector"; a raised backend error degrades to `[]`. -/
def denseVectorSearch (backend : Except String (List VRow)) : List Cand :=
  match backend with
  | .error _ => []
  | .ok rows => rows.map fun r => ⟨"vector", some r.chunk_id, r.score, 0, r.content, r.file_id, r.metadata⟩

/-- `SearchService._vector_search` (SearchService.py:192-225): skip when no
vector data, otherwise run the layered pipeline on both candidate stages.
`thr` is the configured similarity threshold. -/
def vectorSearchStage (thr : ℚ) (hasData : Bool)
    (bm25Backend : Except String (List BRow)) (vecBackend : Except String (List VRow)) :
    List Cand :=
  if hasData then vectorSearchPipeline thr (bm25Search bm25Backend) (denseVectorSearch vecBackend)
  else []

/-- The response dict assembled by `SearchService._direct_search`
(SearchService.py:64-87).  The wall-clock `timestamp` field is omitted. -/
structure SearchResponse where
  success : Bool
  answer : String
  sources : List CItem
  session_id : String
deriving DecidableEq, Repr

/-- `SearchService._direct_search`: vector search, graph search (already
degraded to its result list), combination, answer generation.  `genAnswer`
abstracts the LLM call of `_generate_answer`. -/
def directSearch (genAnswer : List CItem → String) (thr : ℚ) (hasData : Bool)
    (bm25Backend : Except String (List BRow)) (vecBackend : Except String (List VRow))
    (graph_results : List String) (session_id : String) : SearchResponse :=
  let combined := combineSearchResults (vectorSearchStage thr hasData bm25Backend vecBackend)
    graph_results
  ⟨true, genAnswer combined, combined, session_id⟩

/-! ### `GraphRAGService._deduplicate_entities` / `_merge_entities`
(GraphRAGService.py:1307-1356) -/

/-- An extracted entity dict.  `etype` is the Python key "type";
`merged_count` is `Option` because the key is only set by `_merge_entities`. -/
structure Entity where
  entity_id : String
  name : String
  etype : String
  confidence : ℚ
  source_chunks : List String
  merged_count : Option ℕ
deriving DecidableEq, Repr

/-- Python `str.lower()` (character-wise lowercasing, modelled over the
string's characters so that it evaluates). -/
def pyLower (s : String) : String :=
  String.mk (s.toList.map Char.toLower)

/-- Python `str.strip()`: drop leading and trailing whitespace. -/
def pyStrip (s : String) : String :=
  String.mk (((s.toList.dropWhile Char.isWhitespace).reverse.dropWhile
    Char.isWhitespace).reverse)

/-- Python `s.startswith(p)`. -/
def pyStartsWith (s p : String) : Bool :=
  p.toList.isPrefixOf s.toList

/-- Python `s.endswith(p)`. -/
def pyEndsWith (s p : String) : Bool :=
  p.toList.reverse.isPrefixOf s.toList.reverse

/-- Python `s[n:]` (drop the first n characters). -/
def pyDrop (s : String) (n : ℕ) : String :=
  String.mk (s.toList.drop n)

/-- Python `s[:-n]` (drop the last n characters). -/
def pyDropRight (s : String) (n : ℕ) : String :=
  String.mk (s.toList.take (s.toList.length - n))

/-- The grouping key `entity["name"].lower().strip()`
(GraphRAGService.py:1316). -/
def entityKey (e : Entity) : String :=
  pyStrip (pyLower e.name)

/-- One step of the grouping loop (GraphRAGService.py:1314-1319): append to
an existing group of the same key, else open a new group at the end.
Groups are kept structurally nonempty as (key, first member, rest). -/
def addToGroups : List (String × Entity × List Entity) → String → Entity →
    List (String × Entity × List Entity)
  | [], k, e => [(k, e, [])]
  | (k', e0, g) :: rest, k, e =>
    if k' = k then (k', e0, g ++ [e]) :: rest
    else (k', e0, g) :: addToGroups rest k e

/-- The insertion-ordered `entity_groups` dict built by
`_deduplicate_entities`. -/
def buildGroups (es : List Entity) : List (String × Entity × List Entity) :=
  es.foldl (fun gs e => addToGroups gs (entityKey e) e) []

/-- `max(entity_group, key=lambda x: x.get("confidence", 0))`: CPython `max`
keeps the earlier element unless a strictly larger key appears. -/
def maxByConf (e : Entity) : List Entity → Entity
  | [] => e
  | f :: fs => if e.confidence < f.confidence then maxByConf f fs else maxByConf e fs

/-- `list(set(xs))` determinised to first-occurrence order (the claim and
the code only use it as a set). -/
def dedupFirst : List String → List String
  | [] => []
  | x :: xs => x :: (dedupFirst xs).filter (fun y => y ≠ x)

/-- `GraphRAGService._merge_entities` (GraphRAGService.py:1338-1356) on the
nonempty group `e0 :: g`: highest-confidence member as base, source chunks
unioned, `merged_count` set to the group size. -/
def mergeEntities (e0 : Entity) (g : List Entity) : Entity :=
  let base := maxByConf e0 g
  { base with
    source_chunks := dedupFirst (((e0 :: g).map Entity.source_chunks).flatten)
    merged_count := some (e0 :: g).length }

/-- The per-group branch of `_deduplicate_entities`
(GraphRAGService.py:1324-1330): singleton groups pass through unchanged,
larger groups are merged. -/
def mergeGroup (p : String × Entity × List Entity) : Entity :=
  match p.2.2 with
  | [] => p.2.1
  | _ :: _ => mergeEntities p.2.1 p.2.2

/-- `GraphRAGService._deduplicate_entities` (GraphRAGService.py:1307-1336). -/
def dedupEntities (es : List Entity) : List Entity :=
  if es.isEmpty then []
  else (buildGroups es).map mergeGroup

/-! ### `GraphRAGService._optimize_relations` (GraphRAGService.py:1358-1384) -/

/-- An extracted relation dict (subject, predicate, object). -/
structure Rel where
  subject : String
  predicate : String
  object : String
deriving DecidableEq, Repr

/-- The duplicate-detection key
`f"{subject}_{predicate}_{object_name}"` (GraphRAGService.py:1375). -/
def relKey (r : Rel) : String :=
  r.subject ++ "_" ++ r.predicate ++ "_" ++ r.object

/-- The keys of `entity_name_to_id` (GraphRAGService.py:1362): membership in
the dict is membership among canonical entity names. -/
def entityNames (es : List Entity) : List String :=
  es.map Entity.name

/-- The filtering loop of `_optimize_relations` with its `seen_relations`
set: keep a relation when both endpoint names are canonical entity names
and its joined key is unseen. -/
def optimizeRelationsAux (names : List String) : List Rel → List String → List Rel
  | [], _ => []
  | r :: rs, seen =>
    if r.subject ∈ names ∧ r.object ∈ names then
      if relKey r ∈ seen then optimizeRelationsAux names rs seen
      else r :: optimizeRelationsAux names rs (relKey r :: seen)
    else optimizeRelationsAux names rs seen

/-- `GraphRAGService._optimize_relations`. -/
def optimizeRelations (relations : List Rel) (entities : List Entity) : List Rel :=
  optimizeRelationsAux (entityNames entities) relations []

/-! ### `GraphRAGService._parse_entities_response` (GraphRAGService.py:1459-1497) -/

/-- A decoded JSON value, as produced by the Python standard library's
`json.loads` (external to the repository; the decoder itself is passed as a
parameter below). -/
inductive Json where
  | null : Json
  | bool : Bool → Json
  | num : ℚ → Json
  | str : String → Json
  | arr : List Json → Json
  | obj : List (String × Json) → Json

/-- Python truthiness of a decoded JSON value. -/
def jtruthy : Json → Bool
  | .null => false
  | .bool b => b
  | .num q => if q = 0 then false else true
  | .str s => if s = "" then false else true
  | .arr xs => !xs.isEmpty
  | .obj fs => !fs.isEmpty

/-- The code-fence stripping of `_parse_entities_response`
(GraphRAGService.py:1462-1469). -/
def stripFences (s : String) : String :=
  let c := pyStrip s
  let c :=
    if pyStartsWith c "```json" then pyDrop c 7
    else if pyStartsWith c "```" then pyDrop c 3
    else c
  if pyEndsWith c "```" then pyDropRight c 3 else c

/-- The opening-brace character (written by code point to keep it out of
source literals). -/
def lbrace : Char := Char.ofNat 123

/-- The closing-brace character. -/
def rbrace : Char := Char.ofNat 125

/-- `cleaned_response[start_idx:end_idx+1]` where `start_idx` is the first
opening brace and `end_idx` the last closing brace
(GraphRAGService.py:1472-1476); `none` when either is absent, in which case
the function returns `[]` without ever invoking the JSON decoder. -/
def braceSlice (s : String) : Option String :=
  let cs := s.toList
  match cs.findIdx? (fun c => c = lbrace), cs.reverse.findIdx? (fun c => c = rbrace) with
  | some i, some jr => some (String.mk ((cs.drop i).take (cs.length - 1 - jr + 1 - i)))
  | _, _ => none

/-- An entity standardised by `_parse_entities_response`
(GraphRAGService.py:1484-1489); the generated `entity_id` (a fresh uuid) is
omitted. -/
structure ParsedEntity where
  name : String
  etype : String
  confidence : ℚ
deriving DecidableEq, Repr

/-- Standardising one element of the decoded `entities` list
(GraphRAGService.py:1482-1489).  `none` models a raised exception
(`.strip()` on a non-string), `some none` a skipped element, `some (some e)`
an appended entity. -/
def stdEntity (j : Json) : Option (Option ParsedEntity) :=
  match j with
  | .obj fields =>
    match (fields.lookup "name").getD Json.null with
    | .str s =>
      if s = "" then some none
      else
        match (fields.lookup "type").getD (Json.str "UNKNOWN") with
        | .str t => some (some ⟨s.trim, t.trim, 8/10⟩)
        | _ => none
    | .null => some none
    | .bool b => if b then none else some none
    | .num q => if q = 0 then some none else none
    | .arr xs => if xs.isEmpty then some none else none
    | .obj fs => if fs.isEmpty then some none else none
  | _ => some none

/-- The standardisation loop; an exception anywhere aborts the whole
response (`except` returns `[]`). -/
def stdEntities : List Json → Option (List ParsedEntity)
  | [] => some []
  | j :: js =>
    match stdEntity j with
    | none => none
    | some none => stdEntities js
    | some (some e) => (stdEntities js).map (fun l => e :: l)

/-- `GraphRAGService._parse_entities_response`: strip fences, slice between
the outermost braces, decode, read `entities` (default `[]`), standardise.
Every failure path — no braces, decode error, non-dict result, non-list
`entities`, or an exception while standardising — yields `[]`; there is no
fallback parsing of the raw response text. -/
def parseEntitiesResponse (decode : String → Option Json) (response : String) :
    List ParsedEntity :=
  match braceSlice (stripFences response) with
  | none => []
  | some js =>
    match decode js with
    | none => []
    | some j =>
      match j with
      | .obj fields =>
        match (fields.lookup "entities").getD (Json.arr []) with
        | .arr xs => (stdEntities xs).getD []
        | _ => []
      | _ => []

/-! ### `ResourceManager.submit_task` (resource_manager.py:238-277) -/

/-- The governor state relevant to submission: the `active_tasks` dict
(modelled by its insertion-ordered key list) and the current
`max_concurrent_files` limit. -/
structure GovState where
  active : List String
  limit : ℕ
deriving DecidableEq, Repr

/-- `self.active_tasks[task_id] = {...}`: dict insertion (an existing key is
overwritten, a new key is appended). -/
def dictInsertId (l : List String) (id : String) : List String :=
  if id ∈ l then l else l ++ [id]

/-- `ResourceManager.submit_task`: non-blocking; reject (returning `False`,
state untouched — the task is not queued anywhere) when the active count
has reached the limit, else register the task and return `True`. -/
def submitTask (s : GovState) (id : String) : Bool × GovState :=
  if s.limit ≤ s.active.length then (false, s)
  else (true, ⟨dictInsertId s.active id, s.limit⟩)

/-- The cleanup in `_wrap_task`'s `finally` block
(resource_manager.py:309-315): a finishing task deletes its
`active_tasks` entry, freeing a slot. -/
def finishTask (s : GovState) (id : String) : GovState :=
  ⟨s.active.erase id, s.limit⟩

/-! ### `BatchProcessor` (async_processor.py:191-331) -/

/-- A pending task of one operation kind's batch window (`ProcessingTask`
restricted to the fields the embedding path reads). -/
structure BTask where
  task_id : String
  text : String
deriving DecidableEq, Repr

/-- The observable state of one `BatchProcessor` window: the
`pending_tasks` list plus the history of flushed batches. -/
structure WinState where
  pending : List BTask
  flushes : List (List BTask)
deriving DecidableEq, Repr

/-- One `process_task` call (async_processor.py:205-217) under the claim's
"absent timeout interleaving" premise (`_should_process_batch()` is false
and `_wait_for_batch` does not fire): append to `pending_tasks`; when
`len(pending_tasks) >= batch_size`, `_process_batch`
(async_processor.py:240-263) removes the first `batch_size` tasks and
flushes them as one batch. -/
def processTaskStep (B : ℕ) (s : WinState) (t : BTask) : WinState :=
  let p := s.pending ++ [t]
  if B ≤ p.length then ⟨p.drop B, s.flushes ++ [p.take B]⟩
  else ⟨p, s.flushes⟩

/-- N submissions into an initially empty window of batch size `B`. -/
def runWindow (B : ℕ) (ts : List BTask) : WinState :=
  ts.foldl (processTaskStep B) ⟨[], []⟩

/-- One per-task result of `_process_embedding_batch`
(async_processor.py:278-287). -/
structure BatchResult where
  task_id : String
  embedding : Option (List ℚ)
  status : String
deriving DecidableEq, Repr

/-- `BatchProcessor._process_embedding_batch` (async_processor.py:265-291):
extract all texts, forward them as ONE call to the injected inference
capability `infer` (`model_manager.get_embedding`), and map result `i`
back to task `i`. -/
def processEmbeddingBatch (infer : List String → List (List ℚ)) (tasks : List BTask) :
    List BatchResult :=
  let results := infer (tasks.map BTask.text)
  tasks.mapIdx fun i task =>
    ⟨task.task_id, results[i]?, if i < results.length then "completed" else "failed"⟩

/-! ## Theorems -/

/-! ### Generic facts about the stable descending sort -/

lemma pySortDesc_perm (key : α → ℚ) (l : List α) : (pySortDesc key l).Perm l :=
  List.perm_insertionSort _ l

lemma pySortDesc_sorted (key : α → ℚ) (l : List α) :
    (pySortDesc key l).Pairwise (descBy key) := by
  haveI : IsTotal α (descBy key) := ⟨fun a b => le_total (key b) (key a)⟩
  haveI : IsTrans α (descBy key) := ⟨fun a b c hab hbc => le_trans hbc hab⟩
  exact List.sorted_insertionSort _ l

lemma mem_pySortDesc {key : α → ℚ} {l : List α} {x : α} :
    x ∈ pySortDesc key l ↔ x ∈ l :=
  (pySortDesc_perm key l).mem_iff

/-! ### C1: what the reranking step actually does -/

lemma rerankResults_perm (results : List Cand) :
    (rerankResults results).Perm (assignedScores results) := by
  cases results with
  | nil => simp [rerankResults, assignedScores]
  | cons r rs =>
    simpa [rerankResults] using pySortDesc_perm (fun r => r.final_score) (assignedScores (r :: rs))

lemma rerankResults_sorted (results : List Cand) :
    (rerankResults results).Pairwise (fun a b => b.final_score ≤ a.final_score) := by
  cases results with
  | nil => simp [rerankResults]
  | cons r rs =>
    simpa [rerankResults, descBy] using
      pySortDesc_sorted (fun c => c.final_score) (assignedScores (r :: rs))

/-- C1 (counterexample): on the spec's own scenario — lexical ranks
[docX@1, docY@2], vector ranks [docY@1, docZ@2] — the pipeline's reranking
step (which receives the deduplicated merge, in which docY survives only
with its lexical tag) outputs the order [docX, docZ, docY] with fused
scores 1/61, 1/61, 1/62, not the claimed order [docY, docX, docZ]; docY's
fused score is 1/62, not 1/61 + 1/62. -/
theorem rerank_scenario_counterexample :
    ((rerankResults (mergeAndDeduplicate scenarioLex scenarioVec)).map
        (fun r => (r.chunk_id, r.final_score)) =
      [(some "docX", 1/61), (some "docZ", 1/61), (some "docY", 1/62)]) ∧
    ((rerankResults (mergeAndDeduplicate scenarioLex scenarioVec)).map
        (fun r => r.chunk_id) ≠
      [some "docY", some "docX", some "docZ"]) ∧
    (1 : ℚ)/62 ≠ 1/61 + 1/62 := by
  refine ⟨?_, ?_, by norm_num⟩ <;>
    · simp [scenarioLex, scenarioVec, rerankResults, mergeAndDeduplicate, mergeDedupAux,
        assignedScores, sourceRanked, pySortDesc, List.insertionSort, List.orderedInsert,
        finalScoreOf, rrfFrom]
      norm_num [descBy]
      try decide

/-! ### C10: the fused-score bound and the default threshold -/

lemma mergeDedupAux_countP {c : String} :
    ∀ (l : List Cand) (seen : List String),
      (c ∈ seen → (mergeDedupAux seen l).countP (fun r => r.chunk_id = some c) = 0) ∧
      (mergeDedupAux seen l).countP (fun r => r.chunk_id = some c) ≤ 1 := by
  intro l
  induction l with
  | nil => intro seen; simp [mergeDedupAux]
  | cons r rs ih =>
    intro seen
    match hcid : r.chunk_id with
    | none => simpa [mergeDedupAux, hcid] using ih seen
    | some c' =>
      by_cases hkeep : c' ≠ "" ∧ c' ∉ seen
      · have hrec := ih (c' :: seen)
        by_cases hcc : c' = c
        · subst hcc
          have h0 : (mergeDedupAux (c' :: seen) rs).countP
              (fun r => r.chunk_id = some c') = 0 :=
            hrec.1 (List.mem_cons_self _ _)
          constructor
          · intro hmem; exact absurd hmem hkeep.2
          · simp [mergeDedupAux, hcid, hkeep, List.countP_cons, h0]
        · constructor
          · intro hmem
            have h0 : (mergeDedupAux (c' :: seen) rs).countP
                (fun r => r.chunk_id = some c) = 0 :=
              hrec.1 (List.mem_cons_of_mem _ hmem)
            simp [mergeDedupAux, hcid, hkeep, List.countP_cons, h0, hcc]
          · have h1 := hrec.2
            simp [mergeDedupAux, hcid, hkeep, List.countP_cons, hcc]
            exact h1
      · simpa [mergeDedupAux, hcid, hkeep] using ih seen

lemma mergeAndDeduplicate_countP (b v : List Cand) (c : String) :
    (mergeAndDeduplicate b v).countP (fun r => r.chunk_id = some c) ≤ 1 :=
  (mergeDedupAux_countP (b ++ v) []).2

lemma sourceRanked_countP_le (src c : String) (results : List Cand) :
    (sourceRanked src results).countP (fun r => r.chunk_id = some c) ≤
      results.countP (fun r => r.chunk_id = some c) := by
  unfold sourceRanked
  rw [(pySortDesc_perm _ _).countP_eq]
  rw [List.countP_filter]
  exact List.countP_mono_left fun r _ h => by
    simp only [Bool.and_eq_true, decide_eq_true_eq] at h ⊢
    exact h.1

lemma rrfFrom_nonneg (c : String) :
    ∀ (l : List Cand) (k : ℕ), 0 ≤ rrfFrom k c l := by
  intro l
  induction l with
  | nil => intro k; simp [rrfFrom]
  | cons r rs ih =>
    intro k
    have h1 : (0:ℚ) ≤ if r.chunk_id = some c ∧ c ≠ "" then (1 : ℚ) / (60 + k) else 0 := by
      split
      · positivity
      · exact le_refl 0
    simpa [rrfFrom] using add_nonneg h1 (ih (k + 1))

lemma rrfFrom_le_countP (c : String) :
    ∀ (l : List Cand) (k : ℕ),
      rrfFrom k c l ≤ (l.countP (fun r => r.chunk_id = some c) : ℚ) * (1 / (60 + k)) := by
  intro l
  induction l with
  | nil => intro k; simp [rrfFrom]
  | cons r rs ih =>
    intro k
    have hstep : (1 : ℚ) / (60 + (k + 1 : ℕ)) ≤ 1 / (60 + k) := by
      apply one_div_le_one_div_of_le
      · positivity
      · push_cast; linarith
    have htail : rrfFrom (k + 1) c rs ≤
        (rs.countP (fun r => r.chunk_id = some c) : ℚ) * (1 / (60 + k)) :=
      (ih (k + 1)).trans (by
        apply mul_le_mul_of_nonneg_left hstep
        positivity)
    by_cases hmatch : r.chunk_id = some c ∧ c ≠ ""
    · have hcnt : (r :: rs).countP (fun r => r.chunk_id = some c) =
          rs.countP (fun r => r.chunk_id = some c) + 1 := by
        simp [List.countP_cons, hmatch.1]
      rw [hcnt]
      simp only [rrfFrom, if_pos hmatch]
      push_cast
      linarith
    · have hcnt : rs.countP (fun r => r.chunk_id = some c) ≤
          (r :: rs).countP (fun r => r.chunk_id = some c) := by
        rw [List.countP_cons]
        exact Nat.le_add_right _ _
      simp only [rrfFrom, if_neg hmatch]
      have : ((rs.countP (fun r => r.chunk_id = some c)) : ℚ) * (1 / (60 + k)) ≤
          ((r :: rs).countP (fun r => r.chunk_id = some c) : ℚ) * (1 / (60 + k)) := by
        apply mul_le_mul_of_nonneg_right
        · exact_mod_cast hcnt
        · positivity
      linarith

lemma rrfFrom_empty_chunk (l : List Cand) (k : ℕ) : rrfFrom k "" l = 0 := by
  induction l generalizing k with
  | nil => simp [rrfFrom]
  | cons r rs ih => simp [rrfFrom, ih]

lemma rrfFrom_le_one_div_61 {c : String} {l : List Cand}
    (h : l.countP (fun r => r.chunk_id = some c) ≤ 1) :
    rrfFrom 1 c l ≤ 1 / 61 := by
  have := rrfFrom_le_countP c l 1
  have hc : ((l.countP (fun r => r.chunk_id = some c)) : ℚ) ≤ 1 := by exact_mod_cast h
  have h61 : ((1:ℚ) / (60 + (1:ℕ))) = 1 / 61 := by norm_num
  rw [h61] at this
  calc rrfFrom 1 c l ≤ _ * (1/61) := this
    _ ≤ 1 * (1/61) := by apply mul_le_mul_of_nonneg_right hc; norm_num
    _ = 1/61 := by norm_num

lemma rerank_final_score_le (b v : List Cand) :
    ∀ r ∈ rerankResults (mergeAndDeduplicate b v), r.final_score ≤ 2/61 := by
  intro r hr
  have hmem : r ∈ assignedScores (mergeAndDeduplicate b v) :=
    (rerankResults_perm _).mem_iff.mp hr
  obtain ⟨orig, _, rfl⟩ := List.mem_map.mp hmem
  show finalScoreOf _ _ orig.chunk_id ≤ 2/61
  match hcid : orig.chunk_id with
  | none => simp [finalScoreOf]; norm_num
  | some c =>
    by_cases hc : c = ""
    · subst hc
      simp [finalScoreOf, rrfFrom_empty_chunk]
      norm_num
    · have hbm : rrfFrom 1 c (sourceRanked "bm25" (mergeAndDeduplicate b v)) ≤ 1/61 :=
        rrfFrom_le_one_div_61
          ((sourceRanked_countP_le _ c _).trans (mergeAndDeduplicate_countP b v c))
      have hvs : rrfFrom 1 c (sourceRanked "vector" (mergeAndDeduplicate b v)) ≤ 1/61 :=
        rrfFrom_le_one_div_61
          ((sourceRanked_countP_le _ c _).trans (mergeAndDeduplicate_countP b v c))
      have : finalScoreOf (sourceRanked "bm25" (mergeAndDeduplicate b v))
          (sourceRanked "vector" (mergeAndDeduplicate b v)) (some c) =
          rrfFrom 1 c (sourceRanked "bm25" (mergeAndDeduplicate b v)) +
          rrfFrom 1 c (sourceRanked "vector" (mergeAndDeduplicate b v)) := rfl
      rw [this]
      linarith

/-- C10: every fused score assigned by the reranking step (applied, as in
`_vector_search`, to the deduplicated merge of the two candidate lists) is
at most 2/61 = 2/(k+1) with k = 60; hence whenever the configured
similarity threshold exceeds 2/61 — in particular at its default value
0.7 — the threshold filter removes every candidate and the vector-search
stage returns the empty list. -/
theorem fused_score_bound_and_threshold_empties (b v : List Cand) (thr : ℚ)
    (h : 2/61 < thr) :
    (∀ r ∈ rerankResults (mergeAndDeduplicate b v), r.final_score ≤ 2/61) ∧
    thresholdFilter thr (rerankResults (mergeAndDeduplicate b v)) = [] ∧
    vectorSearchPipeline thr b v = [] := by
  have hbound := rerank_final_score_le b v
  have hfilter : thresholdFilter thr (rerankResults (mergeAndDeduplicate b v)) = [] := by
    unfold thresholdFilter
    rw [List.filter_eq_nil_iff]
    intro r hr
    have := hbound r hr
    simp only [decide_eq_true_eq]
    linarith
  exact ⟨hbound, hfilter, by unfold vectorSearchPipeline; rw [hfilter]; rfl⟩

/-- C10 (witness): at the default threshold 0.7 and a concrete pair of
candidate lists, the bound holds and the stage output is empty. -/
theorem fused_score_bound_witness :
    ((2:ℚ)/61 < 7/10) ∧
    ((∀ r ∈ rerankResults (mergeAndDeduplicate
        [⟨"bm25", some "chunk1", 1, 0, "", "", []⟩]
        [⟨"vector", some "chunk2", 1, 0, "", "", []⟩]), r.final_score ≤ 2/61) ∧
      thresholdFilter (7/10) (rerankResults (mergeAndDeduplicate
        [⟨"bm25", some "chunk1", 1, 0, "", "", []⟩]
        [⟨"vector", some "chunk2", 1, 0, "", "", []⟩])) = [] ∧
      vectorSearchPipeline (7/10)
        [⟨"bm25", some "chunk1", 1, 0, "", "", []⟩]
        [⟨"vector", some "chunk2", 1, 0, "", "", []⟩] = []) :=
  ⟨by norm_num,
    fused_score_bound_and_threshold_empties
      [⟨"bm25", some "chunk1", 1, 0, "", "", []⟩]
      [⟨"vector", some "chunk2", 1, 0, "", "", []⟩]
      (7/10) (by norm_num)⟩

/-- C1 (amended): the reranking step receives the deduplicated merge, in
which each candidate keeps only the first source that produced it; it
assigns every candidate the fused score determined by its rank in its
surviving source's score-descending ranking (`finalScoreOf`, summing
1/(60+rank) over the candidate's occurrences), and returns the scored
candidates stably sorted by fused score descending.  On the spec scenario
this yields docX = 1/61, docZ = 1/61, docY = 1/62 and output order
[docX, docZ, docY]. -/
theorem rerank_amended :
    (∀ results : List Cand,
      (rerankResults results).Perm (assignedScores results) ∧
      (rerankResults results).Pairwise (fun a b => b.final_score ≤ a.final_score)) ∧
    ((rerankResults (mergeAndDeduplicate scenarioLex scenarioVec)).map
        (fun r => (r.chunk_id, r.final_score)) =
      [(some "docX", 1/61), (some "docZ", 1/61), (some "docY", 1/62)]) := by
  refine ⟨fun results => ⟨rerankResults_perm results, rerankResults_sorted results⟩, ?_⟩
  simp [scenarioLex, scenarioVec, rerankResults, mergeAndDeduplicate, mergeDedupAux,
    assignedScores, sourceRanked, pySortDesc, List.insertionSort, List.orderedInsert,
    finalScoreOf, rrfFrom]
  norm_num [descBy]

/-! ### C8: how vector and graph evidence is combined -/

lemma combRel_total : ∀ a b : CItem, combRel a b ∨ combRel b a := by
  intro a b
  rcases Nat.lt_trichotomy (multimediaFlag b) (multimediaFlag a) with h | h | h
  · exact Or.inl (Or.inl h)
  · rcases le_total b.score a.score with hs | hs
    · exact Or.inl (Or.inr ⟨h, hs⟩)
    · exact Or.inr (Or.inr ⟨h.symm, hs⟩)
  · exact Or.inr (Or.inl h)

lemma combRel_trans : ∀ a b c : CItem, combRel a b → combRel b c → combRel a c := by
  intro a b c hab hbc
  rcases hab with h1 | ⟨h1, hs1⟩ <;> rcases hbc with h2 | ⟨h2, hs2⟩
  · exact Or.inl (h2.trans h1)
  · exact Or.inl (h2 ▸ h1)
  · exact Or.inl (h1 ▸ h2)
  · exact Or.inr ⟨h2.trans h1, hs2.trans hs1⟩

lemma combine_sort_perm (l : List CItem) :
    (l.insertionSort combRel).Perm l :=
  List.perm_insertionSort _ l

lemma combine_sort_sorted (l : List CItem) :
    (l.insertionSort combRel).Pairwise combRel := by
  haveI : IsTotal CItem combRel := ⟨combRel_total⟩
  haveI : IsTrans CItem combRel := ⟨combRel_trans⟩
  exact List.sorted_insertionSort _ l

/-- C8 (counterexample): a plain-text vector result with score 0.9 is ranked
BELOW a graph item with the strictly lower score 0.8, because
`(content_type != "text", score)` sorts non-text content first at any
score — multimedia is not preferred merely "within an equal score tier". -/
theorem combine_results_counterexample :
    combineSearchResults
        [⟨"vector", some "chunkT", 9/10, 0, "plain text content", "f1", []⟩]
        ["graph path"] =
      [⟨"graph", "graph", 8/10, "graph path"⟩,
        ⟨"vector", "text", 9/10, "plain text content"⟩] ∧
    (8 : ℚ)/10 < 9/10 := by
  constructor
  · simp [combineSearchResults, toCombinedVector, toCombinedGraph, contentTypeOf,
      List.insertionSort, List.orderedInsert, combRel, multimediaFlag]
  · norm_num

/-- C8 (amended): graph results are scored independently (fixed 0.8, never
entering RRF), and the final list is the concatenation of converted vector
results and graph results, stably sorted by the lexicographic key
(content type not "text", then score) descending — so any non-text item
precedes any text item regardless of score — truncated to 15 entries. -/
theorem combine_results_amended (v : List Cand) (g : List String) :
    (∃ l : List CItem,
      l.Perm ((v.map toCombinedVector) ++ (g.map toCombinedGraph)) ∧
      l.Pairwise combRel ∧
      combineSearchResults v g = l.take 15) ∧
    (combineSearchResults v g).length ≤ 15 ∧
    (∀ x ∈ combineSearchResults v g, x.kind = "graph" →
      x.score = 8/10 ∧ x.content_type = "graph") := by
  refine ⟨⟨((v.map toCombinedVector) ++ (g.map toCombinedGraph)).insertionSort combRel,
    combine_sort_perm _, combine_sort_sorted _, rfl⟩, ?_, ?_⟩
  · unfold combineSearchResults
    exact List.length_take_le _ _
  · intro x hx hkind
    have hmem : x ∈ ((v.map toCombinedVector) ++ (g.map toCombinedGraph)).insertionSort combRel :=
      List.mem_of_mem_take hx
    have hmem2 : x ∈ (v.map toCombinedVector) ++ (g.map toCombinedGraph) :=
      (combine_sort_perm _).mem_iff.mp hmem
    rcases List.mem_append.mp hmem2 with hv | hg
    · obtain ⟨r, _, rfl⟩ := List.mem_map.mp hv
      simp [toCombinedVector] at hkind
    · obtain ⟨p, _, rfl⟩ := List.mem_map.mp hg
      exact ⟨rfl, rfl⟩

/-! ### C9: degradation of failing retrieval stages -/

lemma bm25Search_error_eq_ok_nil (e : String) :
    bm25Search (.error e) = bm25Search (.ok []) := rfl

lemma directSearch_error_eq_ok_nil (genAnswer : List CItem → String) (thr : ℚ)
    (hasData : Bool) (e : String) (vecBackend : Except String (List VRow))
    (graph_results : List String) (sid : String) :
    directSearch genAnswer thr hasData (.error e) vecBackend graph_results sid =
      directSearch genAnswer thr hasData (.ok []) vecBackend graph_results sid := by
  unfold directSearch vectorSearchStage vectorSearchPipeline mergeAndDeduplicate
  rw [bm25Search_error_eq_ok_nil]

/-- C9 (counterexample): with the lexical backend raising, the response is
byte-for-byte identical to the response of a healthy lexical backend that
found nothing — including a run whose evidence list is nonempty — so the
response carries no annotation of which stages degraded. -/
theorem direct_search_no_degradation_annotation :
    (directSearch (fun l => toString l.length) 0 true (.error "connection refused")
        (.ok [⟨"f1", "chunk9", "paragraph", 1/2, []⟩]) ["path"] "s1" =
      directSearch (fun l => toString l.length) 0 true (.ok [])
        (.ok [⟨"f1", "chunk9", "paragraph", 1/2, []⟩]) ["path"] "s1") ∧
    (directSearch (fun l => toString l.length) 0 true (.error "connection refused")
        (.ok [⟨"f1", "chunk9", "paragraph", 1/2, []⟩]) ["path"] "s1").sources =
      [⟨"graph", "graph", 8/10, "path"⟩, ⟨"vector", "text", 1/2, "paragraph"⟩] := by
  refine ⟨directSearch_error_eq_ok_nil _ _ _ _ _ _ _, ?_⟩
  simp [directSearch, vectorSearchStage, vectorSearchPipeline, bm25Search,
    denseVectorSearch, mergeAndDeduplicate, mergeDedupAux, rerankResults, assignedScores,
    sourceRanked, pySortDesc, List.insertionSort, List.orderedInsert, finalScoreOf,
    rrfFrom, thresholdFilter, combineSearchResults, toCombinedVector, toCombinedGraph,
    contentTypeOf, combRel, multimediaFlag]
  norm_num [descBy]
  simp [toCombinedVector, contentTypeOf, combRel, multimediaFlag]

/-- C9 (amended): a retrieval stage whose backend raises contributes an
empty candidate list instead of propagating the failure, and the query
still returns a successful (`success = true`) best-effort result built from
the remaining stages; however, the response does not indicate which stages
degraded — it is indistinguishable from the same query with a healthy
backend that returned no rows. -/
theorem direct_search_degrades_without_annotation (genAnswer : List CItem → String)
    (thr : ℚ) (hasData : Bool) (e : String) (vecBackend : Except String (List VRow))
    (graph_results : List String) (sid : String) :
    bm25Search (.error e) = [] ∧
    (directSearch genAnswer thr hasData (.error e) vecBackend graph_results sid).success
      = true ∧
    directSearch genAnswer thr hasData (.error e) vecBackend graph_results sid =
      directSearch genAnswer thr hasData (.ok []) vecBackend graph_results sid :=
  ⟨rfl, rfl, directSearch_error_eq_ok_nil genAnswer thr hasData e vecBackend graph_results sid⟩

/-! ### C2/C3: entity deduplication -/

lemma addToGroups_keys (gs : List (String × Entity × List Entity)) (k : String) (e : Entity) :
    (addToGroups gs k e).map Prod.fst =
      if k ∈ gs.map Prod.fst then gs.map Prod.fst else gs.map Prod.fst ++ [k] := by
  induction gs with
  | nil => simp [addToGroups]
  | cons p rest ih =>
    obtain ⟨k', e0, g⟩ := p
    by_cases h : k' = k
    · subst h
      simp [addToGroups]
    · by_cases h2 : k ∈ rest.map Prod.fst <;>
        simp [addToGroups, h, ih, h2, Ne.symm h]

lemma addToGroups_wellKeyed {gs : List (String × Entity × List Entity)} {k : String}
    {e : Entity}
    (hgs : ∀ p ∈ gs, entityKey p.2.1 = p.1 ∧ ∀ x ∈ p.2.2, entityKey x = p.1)
    (he : entityKey e = k) :
    ∀ p ∈ addToGroups gs k e, entityKey p.2.1 = p.1 ∧ ∀ x ∈ p.2.2, entityKey x = p.1 := by
  induction gs with
  | nil =>
    intro p hp
    rcases List.mem_cons.mp hp with rfl | hp
    · exact ⟨he, by simp⟩
    · simp at hp
  | cons q rest ih =>
    obtain ⟨k', e0, g⟩ := q
    by_cases h : k' = k
    · subst h
      have hred : addToGroups ((k', e0, g) :: rest) k' e = (k', e0, g ++ [e]) :: rest := by
        simp [addToGroups]
      intro p hp
      rw [hred] at hp
      rcases List.mem_cons.mp hp with rfl | hp
      · have hq := hgs (k', e0, g) (List.mem_cons_self _ _)
        refine ⟨hq.1, fun x hx => ?_⟩
        rcases List.mem_append.mp hx with hx | hx
        · exact hq.2 x hx
        · rw [List.mem_singleton.mp hx]
          exact he
      · exact hgs _ (List.mem_cons_of_mem _ hp)
    · have hred : addToGroups ((k', e0, g) :: rest) k e = (k', e0, g) :: addToGroups rest k e := by
        simp [addToGroups, h]
      intro p hp
      rw [hred] at hp
      rcases List.mem_cons.mp hp with rfl | hp
      · exact hgs _ (List.mem_cons_self _ _)
      · exact ih (fun q hq => hgs q (List.mem_cons_of_mem _ hq)) p hp

lemma addToGroups_keys_nodup {gs : List (String × Entity × List Entity)}
    (h : (gs.map Prod.fst).Nodup) (k : String) (e : Entity) :
    ((addToGroups gs k e).map Prod.fst).Nodup := by
  rw [addToGroups_keys]
  split
  · exact h
  · next hk =>
    exact h.append (List.nodup_singleton k) (by simpa using hk)

lemma buildGroups_invariant (es : List Entity) :
    ∀ (acc : List (String × Entity × List Entity)),
      (∀ p ∈ acc, entityKey p.2.1 = p.1 ∧ ∀ x ∈ p.2.2, entityKey x = p.1) →
      (acc.map Prod.fst).Nodup →
      (∀ p ∈ es.foldl (fun gs e => addToGroups gs (entityKey e) e) acc,
          entityKey p.2.1 = p.1 ∧ ∀ x ∈ p.2.2, entityKey x = p.1) ∧
      ((es.foldl (fun gs e => addToGroups gs (entityKey e) e) acc).map Prod.fst).Nodup := by
  induction es with
  | nil => intro acc h1 h2; exact ⟨h1, h2⟩
  | cons e es' ih =>
    intro acc h1 h2
    exact ih _ (addToGroups_wellKeyed h1 rfl) (addToGroups_keys_nodup h2 _ _)

lemma buildGroups_wellKeyed (es : List Entity) :
    ∀ p ∈ buildGroups es, entityKey p.2.1 = p.1 ∧ ∀ x ∈ p.2.2, entityKey x = p.1 :=
  (buildGroups_invariant es [] (by simp) (by simp)).1

lemma buildGroups_keys_nodup (es : List Entity) :
    ((buildGroups es).map Prod.fst).Nodup :=
  (buildGroups_invariant es [] (by simp) (by simp)).2

lemma maxByConf_mem : ∀ (g : List Entity) (e : Entity), maxByConf e g ∈ e :: g := by
  intro g
  induction g with
  | nil => intro e; simp [maxByConf]
  | cons f fs ih =>
    intro e
    by_cases h : e.confidence < f.confidence
    · rw [show maxByConf e (f :: fs) = maxByConf f fs from by simp [maxByConf, h]]
      exact List.mem_cons_of_mem e (ih f)
    · rw [show maxByConf e (f :: fs) = maxByConf e fs from by simp [maxByConf, h]]
      rcases List.mem_cons.mp (ih e) with h1 | h1
      · rw [h1]
        exact List.mem_cons_self _ _
      · exact List.mem_cons_of_mem _ (List.mem_cons_of_mem _ h1)

lemma maxByConf_ge : ∀ (g : List Entity) (e : Entity), ∀ x ∈ e :: g,
    x.confidence ≤ (maxByConf e g).confidence := by
  intro g
  induction g with
  | nil =>
    intro e x hx
    rcases List.mem_cons.mp hx with rfl | h1
    · simp [maxByConf]
    · simp at h1
  | cons f fs ih =>
    intro e x hx
    by_cases h : e.confidence < f.confidence
    · rw [show maxByConf e (f :: fs) = maxByConf f fs from by simp [maxByConf, h]]
      rcases List.mem_cons.mp hx with rfl | h1
      · exact le_of_lt (lt_of_lt_of_le h (ih f f (List.mem_cons_self _ _)))
      · exact ih f x h1
    · rw [show maxByConf e (f :: fs) = maxByConf e fs from by simp [maxByConf, h]]
      rcases List.mem_cons.mp hx with rfl | h1
      · exact ih _ _ (List.mem_cons_self _ _)
      · rcases List.mem_cons.mp h1 with rfl | h2
        · exact le_trans (not_lt.mp h) (ih e e (List.mem_cons_self _ _))
        · exact ih e x (List.mem_cons_of_mem _ h2)

lemma entityKey_mergeEntities (e0 : Entity) (g : List Entity) :
    entityKey (mergeEntities e0 g) = entityKey (maxByConf e0 g) := rfl

lemma entityKey_mergeGroup {es : List Entity} {p : String × Entity × List Entity}
    (hp : p ∈ buildGroups es) : entityKey (mergeGroup p) = p.1 := by
  obtain ⟨k, e0, g⟩ := p
  have hwf := buildGroups_wellKeyed es _ hp
  cases g with
  | nil => exact hwf.1
  | cons x xs =>
    show entityKey (mergeEntities e0 (x :: xs)) = k
    rw [entityKey_mergeEntities]
    rcases List.mem_cons.mp (maxByConf_mem (x :: xs) e0) with h | h
    · rw [h]; exact hwf.1
    · exact hwf.2 _ h

lemma dedupEntities_keys (es : List Entity) :
    (dedupEntities es).map entityKey = (buildGroups es).map Prod.fst := by
  cases es with
  | nil => rfl
  | cons e es' =>
    show ((buildGroups (e :: es')).map mergeGroup).map entityKey = _
    rw [List.map_map]
    exact List.map_congr_left fun p hp => entityKey_mergeGroup hp

lemma dedupEntities_keys_nodup (es : List Entity) :
    ((dedupEntities es).map entityKey).Nodup := by
  rw [dedupEntities_keys]
  exact buildGroups_keys_nodup es

lemma addToGroups_fresh {gs : List (String × Entity × List Entity)} {k : String}
    (hk : k ∉ gs.map Prod.fst) (e : Entity) :
    addToGroups gs k e = gs ++ [(k, e, [])] := by
  induction gs with
  | nil => rfl
  | cons p rest ih =>
    obtain ⟨k', e0, g⟩ := p
    simp only [List.map_cons, List.mem_cons] at hk
    push_neg at hk
    simp [addToGroups, Ne.symm hk.1, ih hk.2]

lemma buildGroups_of_fresh (es : List Entity) :
    ∀ (acc : List (String × Entity × List Entity)),
      (∀ e ∈ es, entityKey e ∉ acc.map Prod.fst) →
      (es.map entityKey).Nodup →
      es.foldl (fun gs e => addToGroups gs (entityKey e) e) acc =
        acc ++ es.map (fun e => (entityKey e, e, ([] : List Entity))) := by
  induction es with
  | nil => intro acc _ _; simp
  | cons e es' ih =>
    intro acc hfresh hnd
    have hstep : addToGroups acc (entityKey e) e = acc ++ [(entityKey e, e, [])] :=
      addToGroups_fresh (hfresh e (List.mem_cons_self _ _)) e
    have hfresh' : ∀ x ∈ es', entityKey x ∉ (acc ++ [(entityKey e, e, [])]).map Prod.fst := by
      intro x hx
      simp only [List.map_append, List.mem_append, List.map_cons, List.map_nil,
        List.mem_cons, List.not_mem_nil, or_false]
      push_neg
      refine ⟨hfresh x (List.mem_cons_of_mem _ hx), ?_⟩
      have : entityKey e ∉ es'.map entityKey := (List.nodup_cons.mp (by simpa using hnd)).1
      intro hcontra
      exact this (hcontra ▸ List.mem_map_of_mem entityKey hx)
    have hnd' : (es'.map entityKey).Nodup := (List.nodup_cons.mp (by simpa using hnd)).2
    calc (e :: es').foldl (fun gs e => addToGroups gs (entityKey e) e) acc
        = es'.foldl (fun gs e => addToGroups gs (entityKey e) e)
            (acc ++ [(entityKey e, e, [])]) := by rw [List.foldl_cons, hstep]
      _ = (acc ++ [(entityKey e, e, [])]) ++
            es'.map (fun e => (entityKey e, e, ([] : List Entity))) := ih _ hfresh' hnd'
      _ = acc ++ (e :: es').map (fun e => (entityKey e, e, ([] : List Entity))) := by
            simp

lemma dedupEntities_of_nodup {es : List Entity} (h : (es.map entityKey).Nodup) :
    dedupEntities es = es := by
  cases es with
  | nil => rfl
  | cons e es' =>
    show ((buildGroups (e :: es')).map mergeGroup) = e :: es'
    rw [show buildGroups (e :: es') =
        (e :: es').map (fun x => (entityKey x, x, ([] : List Entity))) from
      buildGroups_of_fresh (e :: es') [] (by simp) h]
    rw [List.map_map]
    have hcomp : (mergeGroup ∘ fun x => (entityKey x, x, ([] : List Entity))) = id :=
      funext fun x => rfl
    rw [hcomp, List.map_id]

/-- C3: entity deduplication is idempotent — applied to its own output it
returns that output unchanged, the same entities in the same order. -/
theorem dedup_entities_idempotent (es : List Entity) :
    dedupEntities (dedupEntities es) = dedupEntities es :=
  dedupEntities_of_nodup (dedupEntities_keys_nodup es)

lemma dedupFirst_mem {s : String} : ∀ {l : List String}, s ∈ dedupFirst l ↔ s ∈ l := by
  intro l
  induction l with
  | nil => simp [dedupFirst]
  | cons x xs ih =>
    by_cases h : s = x
    · subst h
      simp [dedupFirst]
    · simp [dedupFirst, h, List.mem_filter, ih]

lemma lookup_addToGroups (gs : List (String × Entity × List Entity)) (k k' : String)
    (e : Entity) :
    (addToGroups gs k' e).lookup k =
      if k' = k then
        match gs.lookup k with
        | some (e0, g) => some (e0, g ++ [e])
        | none => some (e, [])
      else gs.lookup k := by
  induction gs with
  | nil =>
    by_cases h : k' = k
    · subst h
      simp [addToGroups, List.lookup]
    · have hb : (k == k') = false := beq_eq_false_iff_ne.mpr (Ne.symm h)
      simp [addToGroups, List.lookup, hb, h]
  | cons p rest ih =>
    obtain ⟨k₁, e0, g⟩ := p
    by_cases h1 : k₁ = k'
    · subst h1
      by_cases h2 : k₁ = k
      · subst h2
        simp [addToGroups, List.lookup]
      · have hb : (k == k₁) = false := beq_eq_false_iff_ne.mpr (Ne.symm h2)
        simp [addToGroups, List.lookup, hb, h2]
    · by_cases h2 : k₁ = k
      · subst h2
        have hne : ¬ k' = k₁ := fun hc => h1 hc.symm
        simp [addToGroups, List.lookup, h1, hne]
      · have hb : (k == k₁) = false := beq_eq_false_iff_ne.mpr (Ne.symm h2)
        simp [addToGroups, List.lookup, h1, h2, hb, ih]

lemma lookup_buildGroups_go (es : List Entity) :
    ∀ (acc : List (String × Entity × List Entity)) (k : String),
      (∀ e0 g, acc.lookup k = some (e0, g) →
        (es.foldl (fun gs e => addToGroups gs (entityKey e) e) acc).lookup k =
          some (e0, g ++ es.filter (fun e => entityKey e = k))) ∧
      (acc.lookup k = none →
        (es.foldl (fun gs e => addToGroups gs (entityKey e) e) acc).lookup k =
          match es.filter (fun e => entityKey e = k) with
          | [] => none
          | f :: fs => some (f, fs)) := by
  induction es with
  | nil =>
    intro acc k
    constructor
    · intro e0 g h
      simpa using h
    · intro h
      simpa using h
  | cons e es' ih =>
    intro acc k
    by_cases hk : entityKey e = k
    · have hfil : (e :: es').filter (fun x => entityKey x = k) =
          e :: es'.filter (fun x => entityKey x = k) := by
        simp [List.filter_cons, hk]
      constructor
      · intro e0 g h
        have hadd : (addToGroups acc (entityKey e) e).lookup k = some (e0, g ++ [e]) := by
          rw [lookup_addToGroups, if_pos hk, h]
        have := (ih (addToGroups acc (entityKey e) e) k).1 e0 (g ++ [e]) hadd
        rw [List.foldl_cons, this, hfil]
        simp
      · intro h
        have hadd : (addToGroups acc (entityKey e) e).lookup k = some (e, []) := by
          rw [lookup_addToGroups, if_pos hk, h]
        have := (ih (addToGroups acc (entityKey e) e) k).1 e [] hadd
        rw [List.foldl_cons, this, hfil]
        simp
    · have hfil : (e :: es').filter (fun x => entityKey x = k) =
          es'.filter (fun x => entityKey x = k) := by
        simp [List.filter_cons, hk]
      have hadd : (addToGroups acc (entityKey e) e).lookup k = acc.lookup k := by
        rw [lookup_addToGroups, if_neg hk]
      constructor
      · intro e0 g h
        have := (ih (addToGroups acc (entityKey e) e) k).1 e0 g (hadd ▸ h)
        rw [List.foldl_cons, this, hfil]
      · intro h
        have := (ih (addToGroups acc (entityKey e) e) k).2 (hadd ▸ h)
        rw [List.foldl_cons, this, hfil]

lemma lookup_buildGroups (es : List Entity) (k : String) :
    (buildGroups es).lookup k =
      match es.filter (fun e => entityKey e = k) with
      | [] => none
      | f :: fs => some (f, fs) :=
  (lookup_buildGroups_go es [] k).2 (by simp)

lemma mem_of_lookup_eq_some :
    ∀ {gs : List (String × Entity × List Entity)} {k : String} {v : Entity × List Entity},
      gs.lookup k = some v → (k, v) ∈ gs := by
  intro gs
  induction gs with
  | nil => intro k v h; simp [List.lookup] at h
  | cons p rest ih =>
    intro k v h
    obtain ⟨k₁, v₁⟩ := p
    by_cases hk : k = k₁
    · subst hk
      simp [List.lookup] at h
      subst h
      exact List.mem_cons_self _ _
    · have hb : (k == k₁) = false := beq_eq_false_iff_ne.mpr hk
      simp [List.lookup, hb] at h
      exact List.mem_cons_of_mem _ (ih h)

/-- C2 (counterexample): a singleton group is returned unchanged, with no
`merged_count` set — its merge count is not the group size 1 — refuting the
claim for groups of size one. -/
theorem dedup_singleton_no_merge_count :
    dedupEntities [⟨"id1", "Alpha", "CONCEPT", 9/10, ["unitA"], none⟩] =
      [⟨"id1", "Alpha", "CONCEPT", 9/10, ["unitA"], none⟩] ∧
    (([(⟨"id1", "Alpha", "CONCEPT", 9/10, ["unitA"], none⟩ : Entity)]).filter
        (fun e => entityKey e =
          entityKey (⟨"id1", "Alpha", "CONCEPT", 9/10, ["unitA"], none⟩ : Entity))).length
      = 1 ∧
    (dedupEntities [⟨"id1", "Alpha", "CONCEPT", 9/10, ["unitA"], none⟩]).map
      Entity.merged_count = [none] := by
  refine ⟨rfl, ?_, rfl⟩
  simp

/-- C2 (amended): for every case-insensitive name group of the input (the
sublist of entities whose key equals `k`), deduplication returns exactly one
entity for that group: a singleton group passes through unchanged (its
`merged_count` is NOT set), while a larger group yields its first
highest-confidence member with `merged_count` equal to the group size and
source chunks the union of the group's source chunks. -/
theorem dedup_entities_group_spec (es : List Entity) (k : String) (f : Entity)
    (fs : List Entity)
    (hfil : es.filter (fun e => entityKey e = k) = f :: fs) :
    ∃ o ∈ dedupEntities es,
      (∀ o' ∈ dedupEntities es, entityKey o' = k → o' = o) ∧
      (fs = [] → o = f) ∧
      (fs ≠ [] →
        o.entity_id = (maxByConf f fs).entity_id ∧
        o.name = (maxByConf f fs).name ∧
        o.etype = (maxByConf f fs).etype ∧
        o.confidence = (maxByConf f fs).confidence ∧
        maxByConf f fs ∈ f :: fs ∧
        (∀ x ∈ f :: fs, x.confidence ≤ (maxByConf f fs).confidence) ∧
        o.merged_count = some (f :: fs).length ∧
        (∀ s, s ∈ o.source_chunks ↔ ∃ x ∈ f :: fs, s ∈ x.source_chunks)) := by
  have hlook : (buildGroups es).lookup k = some (f, fs) := by
    rw [lookup_buildGroups, hfil]
  have hmemG : (k, f, fs) ∈ buildGroups es := mem_of_lookup_eq_some hlook
  have hdedup : dedupEntities es = (buildGroups es).map mergeGroup := by
    cases es with
    | nil => simp at hfil
    | cons e es' => rfl
  refine ⟨mergeGroup (k, f, fs), ?_, ?_, ?_, ?_⟩
  · rw [hdedup]
    exact List.mem_map_of_mem mergeGroup hmemG
  · intro o' ho' hk'
    rw [hdedup] at ho'
    obtain ⟨p, hp, rfl⟩ := List.mem_map.mp ho'
    have hpk : p.1 = k := (entityKey_mergeGroup hp) ▸ hk'
    have : p = (k, f, fs) :=
      List.inj_on_of_nodup_map (buildGroups_keys_nodup es) hp hmemG (by rw [hpk])
    rw [this]
  · intro h
    subst h
    rfl
  · intro hfs
    cases fs with
    | nil => exact absurd rfl hfs
    | cons x rest =>
      refine ⟨rfl, rfl, rfl, rfl, maxByConf_mem _ _, maxByConf_ge _ _, rfl, ?_⟩
      intro s
      show s ∈ dedupFirst (((f :: x :: rest).map Entity.source_chunks).flatten) ↔ _
      rw [dedupFirst_mem]
      simp [List.mem_flatten]

/-- C2 (witness): the spec scenario — the same entity name seen in unit A
with confidence 0.9 and in unit B with confidence 0.7 — yields exactly one
entity with confidence 0.9, merge count 2 and source units A and B. -/
theorem dedup_entities_group_spec_witness :
    (([⟨"idA", "量子计算", "CONCEPT", 9/10, ["unitA"], none⟩,
        ⟨"idB", "量子计算", "CONCEPT", 7/10, ["unitB"], none⟩] : List Entity).filter
        (fun e => entityKey e =
          entityKey (⟨"idA", "量子计算", "CONCEPT", 9/10, ["unitA"], none⟩ : Entity)) =
      [⟨"idA", "量子计算", "CONCEPT", 9/10, ["unitA"], none⟩,
        ⟨"idB", "量子计算", "CONCEPT", 7/10, ["unitB"], none⟩]) ∧
    (∃ o ∈ dedupEntities
        [⟨"idA", "量子计算", "CONCEPT", 9/10, ["unitA"], none⟩,
          ⟨"idB", "量子计算", "CONCEPT", 7/10, ["unitB"], none⟩],
      (∀ o' ∈ dedupEntities
          [⟨"idA", "量子计算", "CONCEPT", 9/10, ["unitA"], none⟩,
            ⟨"idB", "量子计算", "CONCEPT", 7/10, ["unitB"], none⟩],
        entityKey o' =
          entityKey (⟨"idA", "量子计算", "CONCEPT", 9/10, ["unitA"], none⟩ : Entity) →
            o' = o) ∧
      (([⟨"idB", "量子计算", "CONCEPT", 7/10, ["unitB"], none⟩] : List Entity) = [] →
        o = ⟨"idA", "量子计算", "CONCEPT", 9/10, ["unitA"], none⟩) ∧
      (([⟨"idB", "量子计算", "CONCEPT", 7/10, ["unitB"], none⟩] : List Entity) ≠ [] →
        o.entity_id = (maxByConf ⟨"idA", "量子计算", "CONCEPT", 9/10, ["unitA"], none⟩
          [⟨"idB", "量子计算", "CONCEPT", 7/10, ["unitB"], none⟩]).entity_id ∧
        o.name = (maxByConf ⟨"idA", "量子计算", "CONCEPT", 9/10, ["unitA"], none⟩
          [⟨"idB", "量子计算", "CONCEPT", 7/10, ["unitB"], none⟩]).name ∧
        o.etype = (maxByConf ⟨"idA", "量子计算", "CONCEPT", 9/10, ["unitA"], none⟩
          [⟨"idB", "量子计算", "CONCEPT", 7/10, ["unitB"], none⟩]).etype ∧
        o.confidence = (maxByConf ⟨"idA", "量子计算", "CONCEPT", 9/10, ["unitA"], none⟩
          [⟨"idB", "量子计算", "CONCEPT", 7/10, ["unitB"], none⟩]).confidence ∧
        maxByConf ⟨"idA", "量子计算", "CONCEPT", 9/10, ["unitA"], none⟩
            [⟨"idB", "量子计算", "CONCEPT", 7/10, ["unitB"], none⟩] ∈
          ([⟨"idA", "量子计算", "CONCEPT", 9/10, ["unitA"], none⟩,
            ⟨"idB", "量子计算", "CONCEPT", 7/10, ["unitB"], none⟩] : List Entity) ∧
        (∀ x ∈ ([⟨"idA", "量子计算", "CONCEPT", 9/10, ["unitA"], none⟩,
            ⟨"idB", "量子计算", "CONCEPT", 7/10, ["unitB"], none⟩] : List Entity),
          x.confidence ≤ (maxByConf ⟨"idA", "量子计算", "CONCEPT", 9/10, ["unitA"], none⟩
            [⟨"idB", "量子计算", "CONCEPT", 7/10, ["unitB"], none⟩]).confidence) ∧
        o.merged_count = some
          ([⟨"idA", "量子计算", "CONCEPT", 9/10, ["unitA"], none⟩,
            ⟨"idB", "量子计算", "CONCEPT", 7/10, ["unitB"], none⟩] : List Entity).length ∧
        (∀ s, s ∈ o.source_chunks ↔
          ∃ x ∈ ([⟨"idA", "量子计算", "CONCEPT", 9/10, ["unitA"], none⟩,
            ⟨"idB", "量子计算", "CONCEPT", 7/10, ["unitB"], none⟩] : List Entity),
            s ∈ x.source_chunks))) :=
  ⟨by simp [entityKey], dedup_entities_group_spec _ _ _ _ (by simp [entityKey])⟩

/-! ### C4: relation optimisation -/

lemma optimizeRelationsAux_sublist (names : List String) :
    ∀ (rs : List Rel) (seen : List String),
      (optimizeRelationsAux names rs seen).Sublist rs := by
  intro rs
  induction rs with
  | nil => intro seen; simp [optimizeRelationsAux]
  | cons r rs' ih =>
    intro seen
    by_cases hcond : r.subject ∈ names ∧ r.object ∈ names
    · by_cases hseen : relKey r ∈ seen
      · simp only [optimizeRelationsAux, if_pos hcond, if_pos hseen]
        exact (ih seen).trans (List.sublist_cons_self _ _)
      · simp only [optimizeRelationsAux, if_pos hcond, if_neg hseen]
        exact (ih _).cons₂ r
    · simp only [optimizeRelationsAux, if_neg hcond]
      exact (ih seen).trans (List.sublist_cons_self _ _)

lemma optimizeRelationsAux_mem (names : List String) :
    ∀ (rs : List Rel) (seen : List String),
      ∀ r ∈ optimizeRelationsAux names rs seen,
        (r.subject ∈ names ∧ r.object ∈ names) ∧ relKey r ∉ seen := by
  intro rs
  induction rs with
  | nil => intro seen r hr; simp [optimizeRelationsAux] at hr
  | cons q rs' ih =>
    intro seen r hr
    by_cases hcond : q.subject ∈ names ∧ q.object ∈ names
    · by_cases hseen : relKey q ∈ seen
      · simp only [optimizeRelationsAux, if_pos hcond, if_pos hseen] at hr
        exact ih seen r hr
      · simp only [optimizeRelationsAux, if_pos hcond, if_neg hseen] at hr
        rcases List.mem_cons.mp hr with rfl | hr
        · exact ⟨hcond, hseen⟩
        · have := ih (relKey q :: seen) r hr
          exact ⟨this.1, fun hc => this.2 (List.mem_cons_of_mem _ hc)⟩
    · simp only [optimizeRelationsAux, if_neg hcond] at hr
      exact ih seen r hr

lemma optimizeRelationsAux_keys_pairwise (names : List String) :
    ∀ (rs : List Rel) (seen : List String),
      (optimizeRelationsAux names rs seen).Pairwise (fun a b => relKey a ≠ relKey b) := by
  intro rs
  induction rs with
  | nil => intro seen; simp [optimizeRelationsAux]
  | cons q rs' ih =>
    intro seen
    by_cases hcond : q.subject ∈ names ∧ q.object ∈ names
    · by_cases hseen : relKey q ∈ seen
      · simp only [optimizeRelationsAux, if_pos hcond, if_pos hseen]
        exact ih seen
      · simp only [optimizeRelationsAux, if_pos hcond, if_neg hseen]
        refine List.pairwise_cons.mpr ⟨?_, ih _⟩
        intro b hb hc
        exact (optimizeRelationsAux_mem names rs' _ b hb).2 (hc ▸ List.mem_cons_self _ _)
    · simp only [optimizeRelationsAux, if_neg hcond]
      exact ih seen

lemma optimizeRelationsAux_complete (names : List String) :
    ∀ (rs : List Rel) (seen : List String), ∀ r ∈ rs,
      r.subject ∈ names → r.object ∈ names → relKey r ∉ seen →
      ∃ r' ∈ optimizeRelationsAux names rs seen, relKey r' = relKey r := by
  intro rs
  induction rs with
  | nil => intro seen r hr; simp at hr
  | cons q rs' ih =>
    intro seen r hr hs ho hk
    by_cases hcond : q.subject ∈ names ∧ q.object ∈ names
    · by_cases hseen : relKey q ∈ seen
      · simp only [optimizeRelationsAux, if_pos hcond, if_pos hseen]
        rcases List.mem_cons.mp hr with rfl | hr'
        · exact absurd hseen hk
        · exact ih seen r hr' hs ho hk
      · simp only [optimizeRelationsAux, if_pos hcond, if_neg hseen]
        rcases List.mem_cons.mp hr with rfl | hr'
        · exact ⟨r, List.mem_cons_self _ _, rfl⟩
        · by_cases hkey : relKey r = relKey q
          · exact ⟨q, List.mem_cons_self _ _, hkey.symm⟩
          · obtain ⟨r', hr'', hkey'⟩ := ih (relKey q :: seen) r hr' hs ho
              (by simp [hk, hkey])
            exact ⟨r', List.mem_cons_of_mem _ hr'', hkey'⟩
    · simp only [optimizeRelationsAux, if_neg hcond]
      rcases List.mem_cons.mp hr with rfl | hr'
      · exact absurd ⟨hs, ho⟩ hcond
      · exact ih seen r hr' hs ho hk

/-- C4 (counterexample): two DISTINCT triples — ("a", "P_q", "d") and
("a_P", "q", "d"), all four endpoint names canonical — produce the same
underscore-joined key "a_P_q_d", so the second is dropped even though it is
not an exact-duplicate triple of the first. -/
theorem optimize_relations_counterexample :
    optimizeRelations [⟨"a", "P_q", "d"⟩, ⟨"a_P", "q", "d"⟩]
        [⟨"e1", "a", "T", 1, [], none⟩, ⟨"e2", "a_P", "T", 1, [], none⟩,
          ⟨"e3", "d", "T", 1, [], none⟩] =
      [⟨"a", "P_q", "d"⟩] ∧
    (⟨"a", "P_q", "d"⟩ : Rel) ≠ ⟨"a_P", "q", "d"⟩ ∧
    relKey ⟨"a", "P_q", "d"⟩ = relKey ⟨"a_P", "q", "d"⟩ ∧
    (⟨"a_P", "q", "d"⟩ : Rel).subject ∈ entityNames
        [⟨"e1", "a", "T", 1, [], none⟩, ⟨"e2", "a_P", "T", 1, [], none⟩,
          ⟨"e3", "d", "T", 1, [], none⟩] ∧
    (⟨"a_P", "q", "d"⟩ : Rel).object ∈ entityNames
        [⟨"e1", "a", "T", 1, [], none⟩, ⟨"e2", "a_P", "T", 1, [], none⟩,
          ⟨"e3", "d", "T", 1, [], none⟩] := by
  refine ⟨?_, by decide, by decide, by decide, by decide⟩
  decide

/-- C4 (amended): relation optimisation returns a sublist of the input (in
input order) in which every kept relation has both endpoint names among the
canonical entity names, duplicates are detected by the underscore-joined
key `subject_predicate_object` — so distinct triples with colliding joined
keys are also dropped — keeping the first occurrence of each key; every
input relation with canonical endpoints is represented by some kept
relation with its joined key.  A relation whose endpoint name no longer
names any canonical entity (e.g. "B" merged into "B-Corp") is dropped. -/
theorem optimize_relations_amended (rels : List Rel) (ents : List Entity) :
    ((optimizeRelations rels ents).Sublist rels ∧
      (∀ r ∈ optimizeRelations rels ents,
        r.subject ∈ entityNames ents ∧ r.object ∈ entityNames ents) ∧
      (optimizeRelations rels ents).Pairwise (fun a b => relKey a ≠ relKey b) ∧
      (∀ r ∈ rels, r.subject ∈ entityNames ents → r.object ∈ entityNames ents →
        ∃ r' ∈ optimizeRelations rels ents, relKey r' = relKey r)) ∧
    optimizeRelations [⟨"A", "WORKS_AT", "B"⟩]
        [⟨"e1", "A", "PERSON", 1, [], none⟩, ⟨"e2", "B-Corp", "ORG", 1, [], none⟩] = [] := by
  refine ⟨⟨optimizeRelationsAux_sublist _ rels [],
    fun r hr => (optimizeRelationsAux_mem _ rels [] r hr).1,
    optimizeRelationsAux_keys_pairwise _ rels [],
    fun r hr hs ho => optimizeRelationsAux_complete _ rels [] r hr hs ho (by simp)⟩, ?_⟩
  decide

/-! ### C5: entity-response parsing has no fallback -/

/-- C5 (counterexample): a response in exactly the line-pattern shape a
permissive fallback parser would accept ("Entities: Alice (PERSON)") yields
the empty entity list — even under a decoder that would return an entity if
it were ever consulted — because the response contains no braces and the
function returns `[]` outright; there is no fallback parsing. -/
theorem parse_entities_no_fallback :
    parseEntitiesResponse
        (fun _ => some (Json.obj
          [("entities", Json.arr [Json.obj [("name", Json.str "Alice")]])]))
        "Entities: Alice (PERSON)" = [] ∧
    parseEntitiesResponse (fun _ => none) "Entities: Alice (PERSON)" = [] ∧
    parseEntitiesResponse
        (fun _ => some (Json.obj
          [("entities", Json.arr [Json.obj [("name", Json.str "Alice")]])]))
        "entities json here" = [] := by
  refine ⟨rfl, rfl, rfl⟩

/-- C5 (amended): whenever the extraction response cannot be parsed as the
expected structured list — no brace-delimited region, or the JSON decoder
fails on the sliced region — `_parse_entities_response` returns the empty
entity list; the failure is not surfaced (the function returns normally),
and no fallback line-pattern parsing is attempted. -/
theorem parse_entities_unparseable_yields_empty (decode : String → Option Json)
    (response : String)
    (h : braceSlice (stripFences response) = none ∨
      ∃ js, braceSlice (stripFences response) = some js ∧ decode js = none) :
    parseEntitiesResponse decode response = [] := by
  unfold parseEntitiesResponse
  rcases h with h | ⟨js, hjs, hdec⟩
  · simp [h]
  · simp [hjs, hdec]

/-- C5 (witness): a concrete brace-free model answer parses to `[]`. -/
theorem parse_entities_unparseable_yields_empty_witness :
    (braceSlice (stripFences "The text mentions Alice and Bob.") = none ∨
      ∃ js, braceSlice (stripFences "The text mentions Alice and Bob.") = some js ∧
        (fun _ : String => (none : Option Json)) js = none) ∧
    parseEntitiesResponse (fun _ => none) "The text mentions Alice and Bob." = [] :=
  ⟨Or.inl (by decide),
    parse_entities_unparseable_yields_empty (fun _ => none)
      "The text mentions Alice and Bob." (Or.inl (by decide))⟩

/-! ### C6: governor backpressure -/

/-- C6: `submit_task` is non-blocking and returns a boolean: it returns
`false` exactly when the active-task count has reached the current limit,
leaving the state untouched (nothing is queued); it returns `true` —
registering the task — whenever the count is strictly below the limit,
including immediately after a previously occupied slot frees. -/
theorem governor_submit_backpressure (s : GovState) (id t : String)
    (hfull : s.active.length = s.limit) (ht : t ∈ s.active) :
    (∀ (s' : GovState) (id' : String),
      ((submitTask s' id').1 = false ↔ s'.limit ≤ s'.active.length) ∧
      ((submitTask s' id').1 = false → (submitTask s' id').2 = s') ∧
      ((submitTask s' id').1 = true → id' ∈ (submitTask s' id').2.active)) ∧
    (submitTask s id).1 = false ∧
    (submitTask (finishTask s t) id).1 = true ∧
    id ∈ (submitTask (finishTask s t) id).2.active := by
  have hpos : 0 < s.active.length := List.length_pos_of_mem ht
  have herase : (s.active.erase t).length = s.active.length - 1 :=
    List.length_erase_of_mem ht
  have hnot : ¬ ((finishTask s t).limit ≤ ((finishTask s t).active).length) := by
    show ¬ (s.limit ≤ (s.active.erase t).length)
    rw [herase]
    omega
  refine ⟨?_, ?_, ?_, ?_⟩
  · intro s' id'
    by_cases h : s'.limit ≤ s'.active.length
    · have h1 : submitTask s' id' = (false, s') := by simp [submitTask, h]
      rw [h1]
      exact ⟨⟨fun _ => h, fun _ => rfl⟩, fun _ => rfl, fun hc => by simp at hc⟩
    · have h1 : submitTask s' id' = (true, ⟨dictInsertId s'.active id', s'.limit⟩) := by
        simp [submitTask, h]
      rw [h1]
      refine ⟨⟨fun hc => by simp at hc, fun hc => absurd hc h⟩,
        fun hc => by simp at hc, fun _ => ?_⟩
      show id' ∈ dictInsertId s'.active id'
      unfold dictInsertId
      split
      · assumption
      · simp
  · simp [submitTask, hfull.symm.le]
  · simp [submitTask, hnot]
  · have h1 : submitTask (finishTask s t) id =
        (true, ⟨dictInsertId (finishTask s t).active id, (finishTask s t).limit⟩) := by
      simp [submitTask, hnot]
    rw [h1]
    show id ∈ dictInsertId (finishTask s t).active id
    unfold dictInsertId
    split
    · assumption
    · simp

/-- C6 (witness): a full governor (one active task, limit 1) rejects a new
submission; after the active task finishes, the same submission is
accepted. -/
theorem governor_submit_backpressure_witness :
    ((⟨["t1"], 1⟩ : GovState).active.length = (⟨["t1"], 1⟩ : GovState).limit ∧
      "t1" ∈ (⟨["t1"], 1⟩ : GovState).active) ∧
    (submitTask ⟨["t1"], 1⟩ "t2").1 = false ∧
    (submitTask (finishTask ⟨["t1"], 1⟩ "t1") "t2").1 = true :=
  ⟨⟨rfl, by decide⟩,
    (governor_submit_backpressure ⟨["t1"], 1⟩ "t2" "t1" rfl (by decide)).2.1,
    (governor_submit_backpressure ⟨["t1"], 1⟩ "t2" "t1" rfl (by decide)).2.2.1⟩

/-! ### C7: the batch window -/

lemma runWindow_go (B : ℕ) (hB : 1 ≤ B) :
    ∀ (ts : List BTask) (s : WinState),
      s.pending.length < B → (∀ f ∈ s.flushes, f.length = B) →
      (ts.foldl (processTaskStep B) s).pending.length < B ∧
      (∀ f ∈ (ts.foldl (processTaskStep B) s).flushes, f.length = B) ∧
      (ts.foldl (processTaskStep B) s).flushes.flatten ++
          (ts.foldl (processTaskStep B) s).pending =
        s.flushes.flatten ++ s.pending ++ ts ∧
      (ts.foldl (processTaskStep B) s).flushes.length =
        s.flushes.length + (s.pending.length + ts.length) / B ∧
      (ts.foldl (processTaskStep B) s).pending.length =
        (s.pending.length + ts.length) % B := by
  intro ts
  induction ts with
  | nil =>
    intro s hp hf
    refine ⟨hp, hf, by simp, ?_, ?_⟩
    · simp [Nat.div_eq_of_lt hp]
    · simp [Nat.mod_eq_of_lt hp]
  | cons t ts' ih =>
    intro s hp hf
    by_cases hflush : B ≤ (s.pending ++ [t]).length
    · have hlen : (s.pending ++ [t]).length = B := by
        simp only [List.length_append, List.length_singleton]
        simp only [List.length_append, List.length_singleton] at hflush
        omega
      have hstep : processTaskStep B s t =
          ⟨[], s.flushes ++ [s.pending ++ [t]]⟩ := by
        unfold processTaskStep
        rw [if_pos hflush, List.take_of_length_le (le_of_eq hlen),
          List.drop_eq_nil_of_le (le_of_eq hlen)]
      rw [List.foldl_cons, hstep]
      have hf' : ∀ f ∈ s.flushes ++ [s.pending ++ [t]], f.length = B := by
        intro f hmem
        rcases List.mem_append.mp hmem with h | h
        · exact hf f h
        · rw [List.mem_singleton.mp h]
          exact hlen
      obtain ⟨c1, c2, c3, c4, c5⟩ :=
        ih ⟨[], s.flushes ++ [s.pending ++ [t]]⟩ (by simpa using hB) hf'
      have hpl : s.pending.length + 1 = B := by
        simp only [List.length_append, List.length_singleton] at hlen
        omega
      refine ⟨c1, c2, ?_, ?_, ?_⟩
      · rw [c3]
        simp
      · rw [c4]
        dsimp only
        simp only [List.length_append, List.length_singleton, List.length_nil,
          List.length_cons, Nat.zero_add]
        have harr : s.pending.length + (ts'.length + 1) = ts'.length + B := by omega
        rw [harr, Nat.add_div_right _ (by omega : 0 < B)]
        omega
      · rw [c5]
        dsimp only
        simp only [List.length_nil, List.length_cons, Nat.zero_add]
        have harr : s.pending.length + (ts'.length + 1) = ts'.length + B := by omega
        rw [harr, Nat.add_mod_right]
    · have hstep : processTaskStep B s t = ⟨s.pending ++ [t], s.flushes⟩ := by
        unfold processTaskStep
        rw [if_neg hflush]
      rw [List.foldl_cons, hstep]
      have hp' : (s.pending ++ [t]).length < B := by
        simp only [List.length_append, List.length_singleton] at hflush ⊢
        omega
      obtain ⟨c1, c2, c3, c4, c5⟩ := ih ⟨s.pending ++ [t], s.flushes⟩ hp' hf
      refine ⟨c1, c2, ?_, ?_, ?_⟩
      · rw [c3]
        simp
      · rw [c4]
        dsimp only
        have harg : (s.pending ++ [t]).length + ts'.length =
            s.pending.length + (t :: ts').length := by
          simp only [List.length_append, List.length_singleton, List.length_cons,
            List.length_nil]
          ring
        rw [harg]
      · rw [c5]
        dsimp only
        have harg : (s.pending ++ [t]).length + ts'.length =
            s.pending.length + (t :: ts').length := by
          simp only [List.length_append, List.length_singleton, List.length_cons,
            List.length_nil]
          ring
        rw [harg]

/-- C7 (counterexample): three submissions into a window of batch size 2,
absent any timeout, produce exactly ONE size-triggered flush — not
⌈3/2⌉ = 2 — with the third item left pending (it can only ever be flushed
by the timeout path). -/
theorem batch_window_counterexample :
    (runWindow 2 [⟨"t1", "a"⟩, ⟨"t2", "b"⟩, ⟨"t3", "c"⟩]).flushes.length = 1 ∧
    (runWindow 2 [⟨"t1", "a"⟩, ⟨"t2", "b"⟩, ⟨"t3", "c"⟩]).flushes =
      [[⟨"t1", "a"⟩, ⟨"t2", "b"⟩]] ∧
    (runWindow 2 [⟨"t1", "a"⟩, ⟨"t2", "b"⟩, ⟨"t3", "c"⟩]).pending = [⟨"t3", "c"⟩] ∧
    (3 + 2 - 1) / 2 = 2 ∧
    (runWindow 2 [⟨"t1", "a"⟩, ⟨"t2", "b"⟩, ⟨"t3", "c"⟩]).flushes.length ≠ 2 := by
  refine ⟨?_, ?_, ?_, ?_, ?_⟩ <;> decide

/-- C7 (amended): absent timeout interleaving, N submissions into a window
of batch size B produce exactly ⌊N/B⌋ size-triggered flushes — the N mod B
remainder stays pending awaiting the timeout path, so ⌈N/B⌉ is reached only
when B divides N; flushed batches partition the submissions in order, each
flush holding exactly B tasks (the whole pending list at that moment); a
flushed batch is forwarded as ONE call to the injected inference
capability, and within the returned result list position `i` carries the
id of the batch's i-th task and the i-th inference result. -/
theorem batch_window_amended (B : ℕ) (hB : 1 ≤ B) (ts : List BTask)
    (infer : List String → List (List ℚ)) :
    (runWindow B ts).flushes.length = ts.length / B ∧
    (∀ f ∈ (runWindow B ts).flushes, f.length = B) ∧
    (runWindow B ts).flushes.flatten ++ (runWindow B ts).pending = ts ∧
    (runWindow B ts).pending.length = ts.length % B ∧
    (∀ (tasks : List BTask) (i : ℕ) (hi : i < tasks.length),
      (processEmbeddingBatch infer tasks)[i]? =
        some ⟨(tasks.get ⟨i, hi⟩).task_id, (infer (tasks.map BTask.text))[i]?,
          if i < (infer (tasks.map BTask.text)).length then "completed"
          else "failed"⟩) := by
  obtain ⟨c1, c2, c3, c4, c5⟩ :=
    runWindow_go B hB ts ⟨[], []⟩ (by simpa using hB) (by simp)
  refine ⟨by simpa using c4, c2, by simpa using c3, by simpa using c5, ?_⟩
  intro tasks i hi
  have hlen : (processEmbeddingBatch infer tasks).length = tasks.length := by
    simp [processEmbeddingBatch]
  have hi' : i < (processEmbeddingBatch infer tasks).length := by
    rw [hlen]; exact hi
  rw [List.getElem?_eq_getElem hi']
  congr 1
  show (processEmbeddingBatch infer tasks).get ⟨i, hi'⟩ = _
  unfold processEmbeddingBatch
  exact List.get_mapIdx tasks _ i hi

/-- C7 (witness): batch size 2 with two submissions gives one flush of both
tasks in order, and the batch call maps result 0 to task 0. -/
theorem batch_window_amended_witness :
    (1 ≤ 2) ∧
    (runWindow 2 [⟨"t1", "a"⟩, ⟨"t2", "b"⟩]).flushes.length = 2 / 2 ∧
    (runWindow 2 [⟨"t1", "a"⟩, ⟨"t2", "b"⟩]).flushes.flatten ++
        (runWindow 2 [⟨"t1", "a"⟩, ⟨"t2", "b"⟩]).pending =
      [⟨"t1", "a"⟩, ⟨"t2", "b"⟩] ∧
    (processEmbeddingBatch (fun texts => texts.map fun _ => [0])
        [⟨"t1", "a"⟩, ⟨"t2", "b"⟩])[0]? =
      some ⟨(([⟨"t1", "a"⟩, ⟨"t2", "b"⟩] : List BTask).get ⟨0, by decide⟩).task_id,
        ((fun texts : List String => texts.map fun _ => ([0] : List ℚ))
            (([⟨"t1", "a"⟩, ⟨"t2", "b"⟩] : List BTask).map BTask.text))[0]?,
        if 0 < ((fun texts : List String => texts.map fun _ => ([0] : List ℚ))
            (([⟨"t1", "a"⟩, ⟨"t2", "b"⟩] : List BTask).map BTask.text)).length
        then "completed" else "failed"⟩ :=
  ⟨by decide,
    (batch_window_amended 2 (by decide) [⟨"t1", "a"⟩, ⟨"t2", "b"⟩]
      (fun texts => texts.map fun _ => [0])).1,
    (batch_window_amended 2 (by decide) [⟨"t1", "a"⟩, ⟨"t2", "b"⟩]
      (fun texts => texts.map fun _ => [0])).2.2.1,
    (batch_window_amended 2 (by decide) [⟨"t1", "a"⟩, ⟨"t2", "b"⟩]
      (fun texts => texts.map fun _ => [0])).2.2.2.2 [⟨"t1", "a"⟩, ⟨"t2", "b"⟩] 0
      (by decide)⟩

end PdfRag
